import Mathlib

/-!
Verification of the serve-static middleware (src/index.js) against its
natural-language specification.  The definitions below are a shallow
embedding of the JavaScript source: the error/file event wiring of the
request handler, the two directory listeners, the helper functions
collapseLeadingSlashes / createHtmlDocument, the escape-html and
encodeurl dependencies at their interfaces, the constructor option
handling over a small JavaScript-object heap model, and (modelled from
the spec, since the send dependency is outside this repository) the
range engine and the event traces emitted per request outcome.
-/

namespace ServeStatic

/-! ## Stream error / file event wiring (src/index.js lines 85-124) -/

/-- An error value as seen by the error listener: only its statusCode
field is consulted; absent statusCode is modelled as none. -/
structure Err where
  statusCode : Option Nat
deriving DecidableEq, Repr

/-- Events emitted by the send stream that the middleware listens to on
the error-forwarding path. -/
inductive StreamEvent where
  | file
  | error (e : Err)
deriving DecidableEq, Repr

/-- What the middleware passes to the next-handler. -/
inductive NextCall where
  | bare
  | withErr (e : Err)
deriving DecidableEq, Repr

/-- The JavaScript test err.statusCode < 500: comparison with an absent
statusCode is false (undefined < 500 evaluates to false). -/
def errStatusBelow500 (e : Err) : Bool :=
  match e.statusCode with
  | some c => c < 500
  | none => false

/-- The error listener of src/index.js lines 114-121: forward the error
when forwardError is set or the statusCode is not below 500, otherwise
defer with a bare next(). -/
def errorCallback (forwardError : Bool) (e : Err) : NextCall :=
  if forwardError || !(errStatusBelow500 e) then NextCall.withErr e else NextCall.bare

/-- State transition of the forwardError flag: the file listener
(registered only when fallthrough is true, src/index.js lines 106-111)
sets it to true; nothing else changes it. -/
def stepForward (fallthrough : Bool) (fe : Bool) (ev : StreamEvent) : Bool :=
  match ev with
  | StreamEvent.file => if fallthrough then true else fe
  | StreamEvent.error _ => fe

/-- The forwardError flag after a sequence of events, starting from fe. -/
def feAfter (fallthrough : Bool) (fe : Bool) : List StreamEvent → Bool
  | [] => fe
  | ev :: rest => feAfter fallthrough (stepForward fallthrough fe ev) rest

/-- Process a sequence of stream events from a given forwardError state,
collecting the next-handler calls made by the error listener. -/
def runFrom (fallthrough : Bool) : Bool → List StreamEvent → List NextCall
  | _, [] => []
  | fe, StreamEvent.file :: rest => runFrom fallthrough (if fallthrough then true else fe) rest
  | fe, StreamEvent.error e :: rest => errorCallback fe e :: runFrom fallthrough fe rest

/-- Process a request trace: forwardError starts as the negation of
fallthrough (src/index.js line 85). -/
def runStream (fallthrough : Bool) (evs : List StreamEvent) : List NextCall :=
  runFrom fallthrough (!fallthrough) evs

/-! ## collapseLeadingSlashes (src/index.js lines 132-143) -/

/-- Length of the maximal run of leading slash characters; this is the
index i at which the loop of collapseLeadingSlashes stops. -/
def countLeadingSlashes : List Char → Nat
  | [] => 0
  | c :: rest => if c == '/' then countLeadingSlashes rest + 1 else 0

/-- Collapse all leading slashes into a single slash, on the character
list of the string (src/index.js lines 132-143). -/
def collapseLeadingSlashesList (s : List Char) : List Char :=
  let i := countLeadingSlashes s
  if 1 < i then '/' :: s.drop i else s

/-- Collapse all leading slashes into a single slash. -/
def collapseLeadingSlashes (s : String) : String :=
  String.mk (collapseLeadingSlashesList s.data)

/-! ## The escape-html dependency, at its interface: each of the five
special characters is replaced by its HTML entity, all other characters
pass through unchanged. -/

/-- Entity replacement for one character, as performed by escape-html. -/
def escapeHtmlChar (c : Char) : List Char :=
  if c == '&' then "&amp;".data
  else if c == '\x22' then "&quot;".data
  else if c == '\x27' then "&#39;".data
  else if c == '<' then "&lt;".data
  else if c == '>' then "&gt;".data
  else [c]

/-- HTML-escape a character list. -/
def escapeHtmlList (l : List Char) : List Char :=
  l.flatMap escapeHtmlChar

/-- HTML-escape a string (the escape-html dependency). -/
def escapeHtml (s : String) : String :=
  String.mk (escapeHtmlList s.data)

/-! ## The encodeurl dependency, at its interface: characters already
safe in a URL are kept, a percent sign is kept only when it starts a
well-formed percent escape, and every other character is replaced by
the uppercase percent-encoding of its UTF-8 bytes. -/

/-- Hexadecimal digit test for percent-escape well-formedness. -/
def isHexDigitChar (c : Char) : Bool :=
  (48 ≤ c.toNat && c.toNat ≤ 57) || (65 ≤ c.toNat && c.toNat ≤ 70) ||
    (97 ≤ c.toNat && c.toNat ≤ 102)

/-- Characters that encodeurl leaves in place (the complement of its
encode-characters class, joined with the characters encodeURI keeps);
the percent sign is handled separately. -/
def isUrlSafeChar (c : Char) : Bool :=
  let n := c.toNat
  n == 0x21 || (0x23 ≤ n && n ≤ 0x24) || (0x26 ≤ n && n ≤ 0x3B) || n == 0x3D ||
    (0x3F ≤ n && n ≤ 0x5B) || n == 0x5D || n == 0x5F ||
    (0x61 ≤ n && n ≤ 0x7A) || n == 0x7E

/-- Uppercase hexadecimal digit of a value below 16. -/
def upperHexDigit (n : Nat) : Char :=
  if n < 10 then Char.ofNat (48 + n) else Char.ofNat (55 + n)

/-- Percent-encode one byte as a three-character escape. -/
def percentEncodeByte (b : Nat) : List Char :=
  ['%', upperHexDigit (b / 16), upperHexDigit (b % 16)]

/-- UTF-8 bytes of a unicode scalar value. -/
def utf8BytesOfChar (c : Char) : List Nat :=
  let n := c.toNat
  if n < 0x80 then [n]
  else if n < 0x800 then [0xC0 + n / 64, 0x80 + n % 64]
  else if n < 0x10000 then [0xE0 + n / 4096, 0x80 + n / 64 % 64, 0x80 + n % 64]
  else [0xF0 + n / 262144, 0x80 + n / 4096 % 64, 0x80 + n / 64 % 64, 0x80 + n % 64]

/-- Percent-encode a character list as encodeurl does. -/
def encodeUrlList : List Char → List Char
  | [] => []
  | '%' :: a :: b :: rest =>
    if isHexDigitChar a && isHexDigitChar b then '%' :: a :: b :: encodeUrlList rest
    else percentEncodeByte 0x25 ++ encodeUrlList (a :: b :: rest)
  | '%' :: rest => percentEncodeByte 0x25 ++ encodeUrlList rest
  | c :: rest =>
    if isUrlSafeChar c then c :: encodeUrlList rest
    else utf8BytesOfChar c |>.flatMap percentEncodeByte ++ encodeUrlList rest

/-- Percent-encode a URL string (the encodeurl dependency). -/
def encodeUrl (s : String) : String :=
  String.mk (encodeUrlList s.data)

/-! ## createHtmlDocument and the directory listeners
(src/index.js lines 153-210) -/

/-- Create a minimal HTML document (src/index.js lines 153-164). -/
def createHtmlDocument (title body : String) : String :=
  "<!DOCTYPE html>\n" ++
    "<html lang=\x22en\x22>\n" ++
    "<head>\n" ++
    "<meta charset=\x22utf-8\x22>\n" ++
    "<title>" ++ title ++ "</title>\n" ++
    "</head>\n" ++
    "<body>\n" ++
    "<pre>" ++ body ++ "</pre>\n" ++
    "</body>\n" ++
    "</html>\n"

/-- The redirect response assembled by the redirect directory listener. -/
structure RedirectResponse where
  statusCode : Nat
  headers : List (String × String)
  body : String
deriving DecidableEq, Repr

/-- Outcome of a directory listener: either an error signalled on the
stream (this.error(404)) or a complete redirect response. -/
inductive DirOutcome where
  | error (status : Nat)
  | redirectResponse (r : RedirectResponse)
deriving DecidableEq, Repr

/-- Per-request context seen by a directory listener, for a middleware
mounted at the root: the pathname of the original request URL and its
query string (the search part, empty or beginning with a question
mark).  The hasTrailingSlash test of the send stream inspects this
pathname. -/
structure DirCtx where
  pathname : List Char
  search : List Char
deriving DecidableEq, Repr

/-- The hasTrailingSlash test of the send stream on the request path. -/
def hasTrailingSlash (ctx : DirCtx) : Bool :=
  ctx.pathname.getLast? == some '/'

/-- The directory listener installed when redirect is disabled
(src/index.js lines 171-175): always signal a 404. -/
def notFoundListener (_ : DirCtx) : DirOutcome :=
  DirOutcome.error 404

/-- The response assembled by the redirect directory listener
(src/index.js lines 188-208): a 301 whose Location is the original URL
with a trailing slash appended, leading slashes collapsed and the
result percent-encoded, with the hardened HTML body. -/
def redirectResponseFor (ctx : DirCtx) : RedirectResponse :=
  let newPathname := collapseLeadingSlashesList (ctx.pathname ++ ['/'])
  let loc := encodeUrl (String.mk (newPathname ++ ctx.search))
  let doc := createHtmlDocument "Redirecting"
    ("Redirecting to <a href=\x22" ++ escapeHtml loc ++ "\x22>" ++ escapeHtml loc ++ "</a>")
  { statusCode := 301
    headers :=
      [("Content-Type", "text/html; charset=UTF-8"),
       ("Content-Length", toString doc.utf8ByteSize),
       ("Content-Security-Policy", "default-src \x27none\x27"),
       ("X-Content-Type-Options", "nosniff"),
       ("Location", loc)]
    body := doc }

/-- The directory listener installed when redirect is enabled
(src/index.js lines 182-209): 404 when the path already has a trailing
slash, otherwise the redirect response. -/
def redirectListener (ctx : DirCtx) : DirOutcome :=
  if hasTrailingSlash ctx then DirOutcome.error 404
  else DirOutcome.redirectResponse (redirectResponseFor ctx)

/-- The directory listener selected at construction time
(src/index.js lines 67-69). -/
def onDirectory (redirect : Bool) (ctx : DirCtx) : DirOutcome :=
  if redirect then redirectListener ctx else notFoundListener ctx

/-- The Location header value of a redirect outcome, when present. -/
def locationOf : DirOutcome → Option String
  | DirOutcome.error _ => none
  | DirOutcome.redirectResponse r =>
    (r.headers.find? (fun kv => kv.1 == "Location")).map (fun kv => kv.2)

/-! ## HTML-escaping safety predicates -/

/-- No raw special character: the list contains none of the characters
that must not appear unescaped inside an HTML attribute or text node
(angle brackets and both quote characters). -/
def noRawSpecial (l : List Char) : Bool :=
  l.all (fun c => !(c == '<' || c == '>' || c == '\x22' || c == '\x27'))

/-- The list begins with the tail of one of the five entities produced
by escape-html. -/
def entityTailOk (l : List Char) : Bool :=
  List.isPrefixOf "amp;".data l || List.isPrefixOf "quot;".data l ||
    List.isPrefixOf "#39;".data l || List.isPrefixOf "lt;".data l ||
    List.isPrefixOf "gt;".data l

/-- Every ampersand in the list starts a complete HTML entity. -/
def ampOk : List Char → Bool
  | [] => true
  | c :: rest => (!(c == '&') || entityTailOk rest) && ampOk rest

/-- A character list is HTML-safe when it has no raw special character
and every ampersand in it starts an entity. -/
def htmlSafe (l : List Char) : Bool :=
  noRawSpecial l && ampOk l

/-! ## Method check at the entry of the request handler
(src/index.js lines 72-83) -/

/-- Outcome of the method check. -/
inductive EntryOutcome where
  | callNextBare
  | respond (statusCode : Nat) (headers : List (String × String)) (body : String)
  | proceed
deriving DecidableEq, Repr

/-- The method check: requests that are neither GET nor HEAD either
fall through with a bare next() or are answered 405 with an Allow
header and an empty body; other requests proceed to the send stream. -/
def serveStaticEntry (fallthrough : Bool) (method : String) : EntryOutcome :=
  if method != "GET" && method != "HEAD" then
    if fallthrough then EntryOutcome.callNextBare
    else EntryOutcome.respond 405 [("Allow", "GET, HEAD"), ("Content-Length", "0")] ""
  else EntryOutcome.proceed

/-! ## Range engine (inside the send dependency, outside this
repository; modelled from the spec) -/

/-- A 206 byte-range response. -/
structure RangedResponse where
  statusCode : Nat
  contentRange : String
  contentLength : Nat
  body : List Nat
deriving DecidableEq, Repr

/-- Outcome of range evaluation. -/
inductive RangeOutcome where
  | ranged (r : RangedResponse)
  | notSatisfiable (contentRange : String)
deriving DecidableEq, Repr

/-- Modelled from the spec: the Range Engine of section 4.5 for a
single parsed interval first-last of a Range bytes header, evaluated
against the bytes of the resolved file.  The end position is clamped
to size - 1; a start at or beyond the size is unsatisfiable; otherwise
the response is a 206 carrying the Content-Range header, a
Content-Length of last - first + 1 and exactly that byte interval. -/
def rangeEvaluate (fileBytes : List Nat) (first last : Nat) : RangeOutcome :=
  let size := fileBytes.length
  if size ≤ first then
    RangeOutcome.notSatisfiable ("bytes */" ++ toString size)
  else
    let e := min last (size - 1)
    RangeOutcome.ranged
      { statusCode := 206
        contentRange :=
          "bytes " ++ toString first ++ "-" ++ toString e ++ "/" ++ toString size
        contentLength := e - first + 1
        body := (fileBytes.drop first).take (e - first + 1) }

/-! ## Per-request event traces of the send stream (emission order is
inside the send dependency, outside this repository; modelled from the
spec) and the headers-listener wiring (src/index.js lines 101-103) -/

/-- Events the send stream emits towards the middleware listeners. -/
inductive SendEvent where
  | dirEvent
  | headersEvent
  | fileEvent
  | streamBody
  | errorEvent
deriving DecidableEq, Repr

/-- Outcome classes of a single request, as the spec section 4.6
classifies them. -/
inductive SendOutcome where
  | fileSuccess
  | notFoundMiss
  | directoryHit
  | streamFailure
deriving DecidableEq, Repr

/-- Modelled from the spec: the event trace the send stream emits for
each outcome of section 4.6.  For a successful file response the
headers event fires once, after the protocol headers are computed and
before the body is flushed; a not-found miss and a stream failure emit
only the error event; a directory hit emits only the directory event,
handed to the directory listener. -/
def sendTrace : SendOutcome → List SendEvent
  | SendOutcome.fileSuccess => [SendEvent.fileEvent, SendEvent.headersEvent, SendEvent.streamBody]
  | SendOutcome.notFoundMiss => [SendEvent.errorEvent]
  | SendOutcome.directoryHit => [SendEvent.dirEvent]
  | SendOutcome.streamFailure => [SendEvent.errorEvent]

/-- Number of invocations of the setHeaders callback over a trace: the
middleware registers it on the headers event exactly when it is
configured (src/index.js lines 101-103), so it runs once per headers
event. -/
def setHeadersCalls (configured : Bool) (tr : List SendEvent) : Nat :=
  if configured then (tr.filter (fun ev => ev == SendEvent.headersEvent)).length else 0

/-! ## Constructor option handling over a JavaScript object heap
(src/index.js lines 46-64) -/

/-- A JavaScript value, as far as the option handling consults one. -/
inductive JsVal where
  | undef
  | jsNull
  | jsBool (b : Bool)
  | jsNum (n : Int)
  | jsStr (s : String)
deriving DecidableEq, Repr

/-- JavaScript truthiness of the modelled values. -/
def truthy : JsVal → Bool
  | JsVal.undef => false
  | JsVal.jsNull => false
  | JsVal.jsBool b => b
  | JsVal.jsNum n => !(n == 0)
  | JsVal.jsStr s => !(s == "")

/-- A JavaScript object: its own properties in insertion order and a
reference to its prototype (none models a null prototype). -/
structure JsObj where
  own : List (String × JsVal)
  proto : Option Nat
deriving DecidableEq, Repr

/-- Own-property lookup. -/
def getOwnProp (o : JsObj) (k : String) : Option JsVal :=
  (o.own.find? (fun kv => kv.1 == k)).map (fun kv => kv.2)

/-- Property lookup along the prototype chain, fuelled to stay total;
an absent property reads as undefined. -/
def getPropFuel (h : List JsObj) : Nat → Option Nat → String → JsVal
  | 0, _, _ => JsVal.undef
  | _, none, _ => JsVal.undef
  | fuel + 1, some r, k =>
    match h[r]? with
    | none => JsVal.undef
    | some o =>
      match getOwnProp o k with
      | some v => v
      | none => getPropFuel h fuel o.proto k

/-- Property read, with fuel bounded by the heap size. -/
def getProp (h : List JsObj) (r : Option Nat) (k : String) : JsVal :=
  getPropFuel h (h.length + 1) r k

/-- Assignment always creates or updates an own property of the target
object, never touching its prototype chain. -/
def setOwnProp (o : JsObj) (k : String) (v : JsVal) : JsObj :=
  { o with
    own :=
      if (o.own.find? (fun kv => kv.1 == k)).isSome then
        o.own.map (fun kv => if kv.1 == k then (k, v) else kv)
      else o.own ++ [(k, v)] }

/-- Heap update of one object by reference. -/
def setProp (h : List JsObj) (r : Nat) (k : String) (v : JsVal) : List JsObj :=
  match h[r]? with
  | none => h
  | some o => h.set r (setOwnProp o k v)

/-- Object.create: a fresh object with the given prototype reference,
appended to the heap. -/
def objCreate (h : List JsObj) (proto : Option Nat) : List JsObj × Nat :=
  (h ++ [{ own := [], proto := proto }], h.length)

/-- The constructor option handling of src/index.js lines 46-64: opts
is created by Object.create over the caller options (or a null
prototype when none are supplied), then opts.maxage and opts.root are
assigned on opts; the maxage value is the JavaScript disjunction
opts.maxage, opts.maxAge, 0. -/
def serveStaticSetup (h : List JsObj) (options : Option Nat) (resolvedRoot : String) :
    List JsObj × Nat :=
  let created := objCreate h options
  let h1 := created.1
  let opts := created.2
  let m1 := getProp h1 (some opts) "maxage"
  let m2 := getProp h1 (some opts) "maxAge"
  let maxage := if truthy m1 then m1 else if truthy m2 then m2 else JsVal.jsNum 0
  let h2 := setProp h1 opts "maxage" maxage
  let h3 := setProp h2 opts "root" (JsVal.jsStr resolvedRoot)
  (h3, opts)

end ServeStatic

namespace ServeStatic

/-! ## Lemmas about the event wiring -/

theorem runFrom_append (ft fe : Bool) (xs ys : List StreamEvent) :
    runFrom ft fe (xs ++ ys) = runFrom ft fe xs ++ runFrom ft (feAfter ft fe xs) ys := by
  induction xs generalizing fe with
  | nil => rfl
  | cons ev rest ih =>
    cases ev with
    | file => simp [runFrom, feAfter, stepForward, ih]
    | error e => simp [runFrom, feAfter, stepForward, ih]

theorem feAfter_of_true (ft : Bool) (xs : List StreamEvent) :
    feAfter ft true xs = true := by
  induction xs with
  | nil => rfl
  | cons ev rest ih =>
    cases ev with
    | file => cases ft <;> simpa [feAfter, stepForward] using ih
    | error e => simpa [feAfter, stepForward] using ih

theorem feAfter_of_file_mem (ft : Bool) (xs : List StreamEvent)
    (h : StreamEvent.file ∈ xs) : feAfter ft (!ft) xs = true := by
  cases ft with
  | false => exact feAfter_of_true false xs
  | true =>
    induction xs with
    | nil => cases h
    | cons ev rest ih =>
      cases ev with
      | file => simpa [feAfter, stepForward] using feAfter_of_true true rest
      | error e =>
        have hm : StreamEvent.file ∈ rest := by
          cases h with
          | tail _ hm => exact hm
        simpa [feAfter, stepForward] using ih hm

theorem feAfter_of_no_file (ft fe : Bool) (xs : List StreamEvent)
    (h : StreamEvent.file ∉ xs) : feAfter ft fe xs = fe := by
  induction xs generalizing fe with
  | nil => rfl
  | cons ev rest ih =>
    cases ev with
    | file => exact absurd (List.mem_cons_self _ _) h
    | error e =>
      have hm : StreamEvent.file ∉ rest := fun hx => h (List.mem_cons_of_mem _ hx)
      simpa [feAfter, stepForward] using ih fe hm

/-! ## Lemmas about collapseLeadingSlashes -/

theorem countLeadingSlashes_le_length (s : List Char) :
    countLeadingSlashes s ≤ s.length := by
  induction s with
  | nil => simp [countLeadingSlashes]
  | cons c rest ih =>
    by_cases hc : c == '/'
    · simpa [countLeadingSlashes, hc] using Nat.succ_le_succ ih
    · simp [countLeadingSlashes, hc]

theorem head_drop_countLeadingSlashes (s : List Char) :
    (s.drop (countLeadingSlashes s)).head? ≠ some '/' := by
  induction s with
  | nil => simp [countLeadingSlashes]
  | cons c rest ih =>
    by_cases hc : c == '/'
    · simpa [countLeadingSlashes, hc] using ih
    · intro h
      simp [countLeadingSlashes, hc] at h
      subst h
      simp at hc

theorem countLeadingSlashes_eq_length (s : List Char) (hne : s ≠ [])
    (h : countLeadingSlashes s = s.length) : s.getLast? = some '/' := by
  induction s with
  | nil => exact absurd rfl hne
  | cons c rest ih =>
    by_cases hc : c == '/'
    · cases hr : rest with
      | nil =>
        subst hr
        have : c = '/' := by simpa using hc
        simp [this]
      | cons d rest2 =>
        have hrest : countLeadingSlashes rest = rest.length := by
          simpa [countLeadingSlashes, hc] using h
        have h2 : rest.getLast? = some '/' := ih (by simp [hr]) hrest
        rw [hr] at h2
        rw [List.getLast?_cons_cons]
        exact h2
    · simp [countLeadingSlashes, hc] at h

theorem countLeadingSlashes_append_of_lt (p q : List Char)
    (h : countLeadingSlashes p < p.length) :
    countLeadingSlashes (p ++ q) = countLeadingSlashes p := by
  induction p with
  | nil => simp [countLeadingSlashes] at h
  | cons c rest ih =>
    by_cases hc : c == '/'
    · have hr : countLeadingSlashes rest < rest.length := by
        simpa [countLeadingSlashes, hc] using h
      simp [countLeadingSlashes, hc, ih hr]
    · simp [countLeadingSlashes, hc]

theorem collapseLeadingSlashesList_eq (s : List Char) :
    collapseLeadingSlashesList s =
      if countLeadingSlashes s = 0 then s
      else '/' :: s.drop (countLeadingSlashes s) := by
  unfold collapseLeadingSlashesList
  by_cases h0 : countLeadingSlashes s = 0
  · simp [h0]
  · by_cases h1 : 1 < countLeadingSlashes s
    · simp [h1, h0]
    · have hc1 : countLeadingSlashes s = 1 := by omega
      cases s with
      | nil => simp [countLeadingSlashes] at h0
      | cons c rest =>
        have hc : c = '/' := by
          by_contra hne
          have hf : (c == '/') = false := by simpa using hne
          simp [countLeadingSlashes, hf] at h0
        rw [hc1]
        simp [hc]

theorem getLast?_drop_of_lt (s : List Char) (n : Nat) (h : n < s.length) :
    (s.drop n).getLast? = s.getLast? := by
  have hd : s.drop n ≠ [] := by
    intro hnil
    have := List.length_drop n s
    rw [hnil] at this
    simp at this
    omega
  conv_rhs => rw [← List.take_append_drop n s]
  rw [List.getLast?_append]
  cases hl : (s.drop n).getLast? with
  | none => exact absurd (List.getLast?_eq_none_iff.mp hl) hd
  | some a => simp

theorem collapseLeadingSlashesList_getLast (p : List Char)
    (h : p.getLast? ≠ some '/') :
    (collapseLeadingSlashesList p).getLast? ≠ some '/' := by
  rw [collapseLeadingSlashesList_eq]
  by_cases h0 : countLeadingSlashes p = 0
  · simpa [h0] using h
  · have hlt : countLeadingSlashes p < p.length := by
      rcases Nat.lt_or_ge (countLeadingSlashes p) p.length with hlt | hge
      · exact hlt
      · have heq : countLeadingSlashes p = p.length :=
          Nat.le_antisymm (countLeadingSlashes_le_length p) hge
        have hne : p ≠ [] := by
          intro hnil
          rw [hnil] at h0
          simp [countLeadingSlashes] at h0
        exact absurd (countLeadingSlashes_eq_length p hne heq) h
    have hd : p.drop (countLeadingSlashes p) ≠ [] := by
      intro hnil
      have := List.length_drop (countLeadingSlashes p) p
      rw [hnil] at this
      simp at this
      omega
    simp only [h0, if_false]
    have hcons : ('/' :: p.drop (countLeadingSlashes p)).getLast? =
        (p.drop (countLeadingSlashes p)).getLast? := by
      rw [show ('/' :: p.drop (countLeadingSlashes p)) =
            ['/'] ++ p.drop (countLeadingSlashes p) from rfl,
          List.getLast?_append]
      cases hl : (p.drop (countLeadingSlashes p)).getLast? with
      | none => exact absurd (List.getLast?_eq_none_iff.mp hl) hd
      | some a => simp
    rw [hcons, getLast?_drop_of_lt p _ hlt]
    exact h

theorem collapseLeadingSlashesList_append_slash (p : List Char)
    (h : p.getLast? ≠ some '/') :
    collapseLeadingSlashesList (p ++ ['/']) =
      collapseLeadingSlashesList p ++ ['/'] := by
  cases hp : p with
  | nil => simp [hp, collapseLeadingSlashesList, countLeadingSlashes]
  | cons c rest =>
    rw [← hp]
    have hne : p ≠ [] := by simp [hp]
    have hlt : countLeadingSlashes p < p.length := by
      rcases Nat.lt_or_ge (countLeadingSlashes p) p.length with hlt | hge
      · exact hlt
      · exact absurd
          (countLeadingSlashes_eq_length p hne
            (Nat.le_antisymm (countLeadingSlashes_le_length p) hge)) h
    have hcount : countLeadingSlashes (p ++ ['/']) = countLeadingSlashes p :=
      countLeadingSlashes_append_of_lt p ['/'] hlt
    rw [collapseLeadingSlashesList_eq, collapseLeadingSlashesList_eq, hcount]
    by_cases h0 : countLeadingSlashes p = 0
    · simp [h0]
    · simp only [h0, if_false]
      rw [List.drop_append_of_le_length (Nat.le_of_lt hlt)]
      simp

/-! ## Lemmas about HTML escaping -/

theorem noRawSpecial_escapeHtmlChar (c : Char) :
    noRawSpecial (escapeHtmlChar c) = true := by
  by_cases h1 : c == '&'
  · simp [escapeHtmlChar, h1]
    decide
  · by_cases h2 : c == '\x22'
    · simp [escapeHtmlChar, h1, h2]
      decide
    · by_cases h3 : c == '\x27'
      · simp [escapeHtmlChar, h1, h2, h3]
        decide
      · by_cases h4 : c == '<'
        · simp [escapeHtmlChar, h1, h2, h3, h4]
          decide
        · by_cases h5 : c == '>'
          · simp [escapeHtmlChar, h1, h2, h3, h4, h5]
            decide
          · simp [escapeHtmlChar, noRawSpecial, h1, h2, h3, h4, h5]

theorem ampOk_escapeHtmlChar (c : Char) (rest : List Char) :
    ampOk (escapeHtmlChar c ++ rest) = ampOk rest := by
  have hamp : "&amp;".data = ['&', 'a', 'm', 'p', ';'] := rfl
  have hquot : "&quot;".data = ['&', 'q', 'u', 'o', 't', ';'] := rfl
  have h39 : "&#39;".data = ['&', '#', '3', '9', ';'] := rfl
  have hlt : "&lt;".data = ['&', 'l', 't', ';'] := rfl
  have hgt : "&gt;".data = ['&', 'g', 't', ';'] := rfl
  by_cases h1 : c == '&'
  · simp [escapeHtmlChar, h1, hamp, ampOk, entityTailOk, List.isPrefixOf]
  · by_cases h2 : c == '\x22'
    · simp [escapeHtmlChar, h1, h2, hquot, ampOk, entityTailOk, List.isPrefixOf]
    · by_cases h3 : c == '\x27'
      · simp [escapeHtmlChar, h1, h2, h3, h39, ampOk, entityTailOk, List.isPrefixOf]
      · by_cases h4 : c == '<'
        · simp [escapeHtmlChar, h1, h2, h3, h4, hlt, ampOk, entityTailOk, List.isPrefixOf]
        · by_cases h5 : c == '>'
          · simp [escapeHtmlChar, h1, h2, h3, h4, h5, hgt, ampOk, entityTailOk,
              List.isPrefixOf]
          · simp [escapeHtmlChar, h1, h2, h3, h4, h5, ampOk]

theorem noRawSpecial_append (l1 l2 : List Char) :
    noRawSpecial (l1 ++ l2) = (noRawSpecial l1 && noRawSpecial l2) := by
  simp [noRawSpecial]

theorem htmlSafe_escapeHtmlList (l : List Char) :
    htmlSafe (escapeHtmlList l) = true := by
  induction l with
  | nil => decide
  | cons c rest ih =>
    have hsplit : escapeHtmlList (c :: rest) = escapeHtmlChar c ++ escapeHtmlList rest := by
      simp [escapeHtmlList]
    rw [htmlSafe, hsplit, noRawSpecial_append, ampOk_escapeHtmlChar,
      noRawSpecial_escapeHtmlChar]
    rw [htmlSafe] at ih
    simpa using ih

theorem countLeadingSlashes_collapse (s : List Char) :
    countLeadingSlashes (collapseLeadingSlashesList s) ≤ 1 := by
  rw [collapseLeadingSlashesList_eq]
  by_cases h0 : countLeadingSlashes s = 0
  · simp [h0]
  · simp only [h0, if_false]
    have hh := head_drop_countLeadingSlashes s
    cases hd : s.drop (countLeadingSlashes s) with
    | nil => simp [countLeadingSlashes]
    | cons d rest2 =>
      have hdne : (d == '/') = false := by
        rw [hd] at hh
        simp at hh
        simpa using hh
      simp [countLeadingSlashes, hdne]

/-! ## Lemmas about the heap model -/

theorem getElem_setProp_ne (h : List JsObj) (i j : Nat) (k : String) (v : JsVal)
    (hne : i ≠ j) : (setProp h i k v)[j]? = h[j]? := by
  unfold setProp
  cases h[i]? with
  | none => rfl
  | some o => simp [List.getElem?_set_ne hne]

theorem getElem_setProp_self (h : List JsObj) (i : Nat) (k : String) (v : JsVal)
    (o : JsObj) (ho : h[i]? = some o) :
    (setProp h i k v)[i]? = some (setOwnProp o k v) := by
  unfold setProp
  rw [ho]
  have hi : i < h.length := by
    by_contra hge
    rw [List.getElem?_eq_none (by omega)] at ho
    cases ho
  simp [List.getElem?_set_self (by simpa using hi)]

theorem proto_setOwnProp (o : JsObj) (k : String) (v : JsVal) :
    (setOwnProp o k v).proto = o.proto := rfl

theorem serveStaticSetup_spec (h : List JsObj) (r : Option Nat) (root : String) :
    ∃ v, serveStaticSetup h r root =
      (setProp (setProp (h ++ [{ own := [], proto := r }]) h.length "maxage" v)
          h.length "root" (JsVal.jsStr root),
        h.length) :=
  ⟨_, rfl⟩

end ServeStatic

namespace ServeStatic

/-! ## The claims -/

/-- C1: for a GET or HEAD request resolving to an existing directory
whose original request path lacks a trailing slash, the enabled
redirect policy responds 301 (the permanent-semantics variant of
src/index.js) with a Location header equal to the original URL with
exactly one trailing slash appended to the path, leading slashes
collapsed to one, percent-encoded, query string preserved; the
disabled redirect policy yields a 404 NotFound. -/
theorem claim1_directory_redirect_policy (p s : List Char)
    (h : hasTrailingSlash { pathname := p, search := s } = false) :
    (onDirectory true { pathname := p, search := s } =
        DirOutcome.redirectResponse (redirectResponseFor { pathname := p, search := s }) ∧
      (redirectResponseFor { pathname := p, search := s }).statusCode = 301 ∧
      ("Location", encodeUrl (String.mk (collapseLeadingSlashesList p ++ '/' :: s))) ∈
        (redirectResponseFor { pathname := p, search := s }).headers) ∧
      collapseLeadingSlashesList (p ++ ['/']) = collapseLeadingSlashesList p ++ ['/'] ∧
      (collapseLeadingSlashesList p).getLast? ≠ some '/' ∧
      countLeadingSlashes (collapseLeadingSlashesList (p ++ ['/'])) ≤ 1 ∧
      onDirectory false { pathname := p, search := s } = DirOutcome.error 404 := by
  have hlast : p.getLast? ≠ some '/' := by
    intro hcontra
    rw [hasTrailingSlash] at h
    simp [hcontra] at h
  have happ := collapseLeadingSlashesList_append_slash p hlast
  have hloc : encodeUrl (String.mk (collapseLeadingSlashesList (p ++ ['/']) ++ s)) =
      encodeUrl (String.mk (collapseLeadingSlashesList p ++ '/' :: s)) := by
    rw [happ, List.append_assoc]
    rfl
  refine ⟨⟨?_, rfl, ?_⟩, happ, collapseLeadingSlashesList_getLast p hlast,
    countLeadingSlashes_collapse _, by simp [onDirectory, notFoundListener]⟩
  · simp [onDirectory, redirectListener, h]
  · rw [← hloc]
    simp [redirectResponseFor]

/-- C1 witness: the theorem applied to the request path /foo with query
?q=1. -/
theorem claim1_witness :
    hasTrailingSlash (DirCtx.mk ['/', 'f', 'o', 'o'] ['?', 'q', '=', '1']) = false ∧
      ((onDirectory true (DirCtx.mk ['/', 'f', 'o', 'o'] ['?', 'q', '=', '1']) =
          DirOutcome.redirectResponse
            (redirectResponseFor (DirCtx.mk ['/', 'f', 'o', 'o'] ['?', 'q', '=', '1'])) ∧
        (redirectResponseFor (DirCtx.mk ['/', 'f', 'o', 'o'] ['?', 'q', '=', '1'])).statusCode
            = 301 ∧
        ("Location",
          encodeUrl (String.mk (collapseLeadingSlashesList ['/', 'f', 'o', 'o'] ++
            '/' :: ['?', 'q', '=', '1']))) ∈
          (redirectResponseFor (DirCtx.mk ['/', 'f', 'o', 'o'] ['?', 'q', '=', '1'])).headers) ∧
      collapseLeadingSlashesList (['/', 'f', 'o', 'o'] ++ ['/']) =
        collapseLeadingSlashesList ['/', 'f', 'o', 'o'] ++ ['/'] ∧
      (collapseLeadingSlashesList ['/', 'f', 'o', 'o']).getLast? ≠ some '/' ∧
      countLeadingSlashes (collapseLeadingSlashesList (['/', 'f', 'o', 'o'] ++ ['/'])) ≤ 1 ∧
      onDirectory false (DirCtx.mk ['/', 'f', 'o', 'o'] ['?', 'q', '=', '1']) =
        DirOutcome.error 404) :=
  ⟨by decide, claim1_directory_redirect_policy ['/', 'f', 'o', 'o'] ['?', 'q', '=', '1']
    (by decide)⟩

/-- C2: once the stream has emitted the file event, every subsequently
emitted error is forwarded to the next-handler as an error value,
never swallowed into a bare deferral, regardless of the fallthrough
setting. -/
theorem claim2_error_after_file_forwarded (ft : Bool) (pre post : List StreamEvent)
    (e : Err) (h : StreamEvent.file ∈ pre) :
    runStream ft (pre ++ StreamEvent.error e :: post) =
      runStream ft pre ++ NextCall.withErr e :: runFrom ft true post := by
  have hfe := feAfter_of_file_mem ft pre h
  rw [runStream, runStream, runFrom_append, hfe]
  simp [runFrom, errorCallback]

/-- C2 witness: a 404-carrying error after the file event, with
fallthrough enabled, is forwarded. -/
theorem claim2_witness :
    StreamEvent.file ∈ [StreamEvent.file] ∧
      runStream true ([StreamEvent.file] ++
          StreamEvent.error { statusCode := some 404 } :: []) =
        runStream true [StreamEvent.file] ++
          NextCall.withErr { statusCode := some 404 } :: runFrom true true [] :=
  ⟨by decide,
    claim2_error_after_file_forwarded true [StreamEvent.file] []
      { statusCode := some 404 } (by decide)⟩

/-- C3 counterexample: with fallthrough enabled and no file event yet,
an error whose statusCode is 500 is forwarded as next(err) rather than
swallowed into a bare next(), contradicting the claim that every such
error is swallowed. -/
theorem claim3_counterexample :
    runStream true [StreamEvent.error { statusCode := some 500 }] =
        [NextCall.withErr { statusCode := some 500 }] ∧
      runStream true [StreamEvent.error { statusCode := some 500 }] ≠
        [NextCall.bare] := by
  decide

/-- C3 (amended): with fallthrough=true, an error raised before any
file event is swallowed into a bare next() exactly when its statusCode
is present and below 500; server-class errors are exempt. -/
theorem claim3_amended_swallow_below_500 (pre post : List StreamEvent) (e : Err)
    (c : Nat) (hfile : StreamEvent.file ∉ pre) (hc : e.statusCode = some c)
    (hlt : c < 500) :
    runStream true (pre ++ StreamEvent.error e :: post) =
      runStream true pre ++ NextCall.bare :: runFrom true false post := by
  have hfe : feAfter true (!true) pre = !true := feAfter_of_no_file true (!true) pre hfile
  rw [runStream, runStream, runFrom_append, hfe]
  simp [runFrom, errorCallback, errStatusBelow500, hc, hlt]

/-- C3 witness: a 404-carrying error before any file event, with
fallthrough enabled, is swallowed. -/
theorem claim3_witness :
    StreamEvent.file ∉ ([] : List StreamEvent) ∧
      ({ statusCode := some 404 } : Err).statusCode = some 404 ∧ 404 < 500 ∧
      runStream true ([] ++ StreamEvent.error { statusCode := some 404 } :: []) =
        runStream true [] ++ NextCall.bare :: runFrom true false [] :=
  ⟨by decide, rfl, by decide,
    claim3_amended_swallow_below_500 [] [] { statusCode := some 404 } 404
      (by decide) rfl (by decide)⟩

/-- C4: a directory whose request path already ends in a trailing
slash yields a 404 error and never a redirect, whichever directory
listener is installed. -/
theorem claim4_trailing_slash_not_found (redirect : Bool) (ctx : DirCtx)
    (h : hasTrailingSlash ctx = true) :
    onDirectory redirect ctx = DirOutcome.error 404 := by
  cases redirect <;> simp [onDirectory, redirectListener, notFoundListener, h]

/-- C4 witness: the theorem applied to the path /dir/ with the redirect
listener installed. -/
theorem claim4_witness :
    hasTrailingSlash { pathname := ['/', 'd', '/'], search := [] } = true ∧
      onDirectory true { pathname := ['/', 'd', '/'], search := [] } =
        DirOutcome.error 404 :=
  ⟨by decide,
    claim4_trailing_slash_not_found true { pathname := ['/', 'd', '/'], search := [] }
      (by decide)⟩

/-- C5: for every file and every byte interval with
first ≤ last < size, range evaluation yields a 206 with
Content-Range bytes first-last/size, Content-Length last - first + 1,
and a body that is exactly that byte interval of the file. -/
theorem claim5_range_request (bytes : List Nat) (first last : Nat)
    (h1 : first ≤ last) (h2 : last < bytes.length) :
    rangeEvaluate bytes first last =
      RangeOutcome.ranged
        { statusCode := 206
          contentRange := "bytes " ++ toString first ++ "-" ++ toString last ++ "/" ++
            toString bytes.length
          contentLength := last - first + 1
          body := (bytes.drop first).take (last - first + 1) } ∧
      ((bytes.drop first).take (last - first + 1)).length = last - first + 1 ∧
      ∀ i, i < last - first + 1 →
        ((bytes.drop first).take (last - first + 1)).getD i 0 = bytes.getD (first + i) 0 := by
  have hmin : min last (bytes.length - 1) = last := Nat.min_eq_left (by omega)
  refine ⟨?_, ?_, ?_⟩
  · unfold rangeEvaluate
    rw [if_neg (by omega)]
    simp [hmin]
  · rw [List.length_take, List.length_drop]
    omega
  · intro i hi
    rw [List.getD_eq_getElem?_getD, List.getD_eq_getElem?_getD,
      List.getElem?_take_of_lt hi, List.getElem?_drop]

/-- C5 witness: the spec scenario of a nine-byte file requested with
Range bytes=2-5. -/
theorem claim5_witness :
    2 ≤ 5 ∧ 5 < ([1, 2, 3, 4, 5, 6, 7, 8, 9] : List Nat).length ∧
      (rangeEvaluate [1, 2, 3, 4, 5, 6, 7, 8, 9] 2 5 =
        RangeOutcome.ranged
          { statusCode := 206
            contentRange := "bytes " ++ toString 2 ++ "-" ++ toString 5 ++ "/" ++
              toString ([1, 2, 3, 4, 5, 6, 7, 8, 9] : List Nat).length
            contentLength := 5 - 2 + 1
            body := (([1, 2, 3, 4, 5, 6, 7, 8, 9] : List Nat).drop 2).take (5 - 2 + 1) } ∧
        ((([1, 2, 3, 4, 5, 6, 7, 8, 9] : List Nat).drop 2).take (5 - 2 + 1)).length =
          5 - 2 + 1 ∧
        ∀ i, i < 5 - 2 + 1 →
          ((([1, 2, 3, 4, 5, 6, 7, 8, 9] : List Nat).drop 2).take (5 - 2 + 1)).getD i 0 =
            ([1, 2, 3, 4, 5, 6, 7, 8, 9] : List Nat).getD (2 + i) 0) :=
  ⟨by decide, by decide, claim5_range_request [1, 2, 3, 4, 5, 6, 7, 8, 9] 2 5
    (by decide) (by decide)⟩

/-- C6: a request whose method is neither GET nor HEAD falls through
with a bare next() when fallthrough is true, and is answered 405 with
Allow GET, HEAD, Content-Length 0 and an empty body when fallthrough
is false. -/
theorem claim6_method_not_allowed (m : String) (h1 : m ≠ "GET") (h2 : m ≠ "HEAD") :
    serveStaticEntry true m = EntryOutcome.callNextBare ∧
      serveStaticEntry false m =
        EntryOutcome.respond 405 [("Allow", "GET, HEAD"), ("Content-Length", "0")] "" := by
  constructor <;> simp [serveStaticEntry, h1, h2]

/-- C6 witness: the spec scenario of an OPTIONS request. -/
theorem claim6_witness :
    "OPTIONS" ≠ "GET" ∧ "OPTIONS" ≠ "HEAD" ∧
      (serveStaticEntry true "OPTIONS" = EntryOutcome.callNextBare ∧
        serveStaticEntry false "OPTIONS" =
          EntryOutcome.respond 405 [("Allow", "GET, HEAD"), ("Content-Length", "0")] "") :=
  ⟨by decide, by decide, claim6_method_not_allowed "OPTIONS" (by decide) (by decide)⟩

/-- C7: the directory redirect response carries the
Content-Security-Policy and X-Content-Type-Options hardening headers,
and its HTML body contains the target location only through the
HTML-escaping function, whose output has no raw angle bracket or quote
character and whose every ampersand starts a complete entity. -/
theorem claim7_redirect_body_escaped (p s : List Char)
    (h : hasTrailingSlash { pathname := p, search := s } = false) :
    ∃ r, onDirectory true { pathname := p, search := s } = DirOutcome.redirectResponse r ∧
      ("Content-Security-Policy", "default-src \x27none\x27") ∈ r.headers ∧
      ("X-Content-Type-Options", "nosniff") ∈ r.headers ∧
      ∃ loc, ("Location", loc) ∈ r.headers ∧
        r.body = createHtmlDocument "Redirecting"
          ("Redirecting to <a href=\x22" ++ escapeHtml loc ++ "\x22>" ++
            escapeHtml loc ++ "</a>") ∧
        htmlSafe (escapeHtml loc).data = true := by
  refine ⟨redirectResponseFor { pathname := p, search := s },
    by simp [onDirectory, redirectListener, h], ?_, ?_,
    encodeUrl (String.mk (collapseLeadingSlashesList (p ++ ['/']) ++ s)), ?_, rfl, ?_⟩
  · simp [redirectResponseFor]
  · simp [redirectResponseFor]
  · simp [redirectResponseFor]
  · exact htmlSafe_escapeHtmlList _

/-- C7 witness: the theorem applied to a path containing a quote and an
angle bracket. -/
theorem claim7_witness :
    hasTrailingSlash { pathname := ['/', '\x22', '<', 'a'], search := [] } = false ∧
      ∃ r, onDirectory true { pathname := ['/', '\x22', '<', 'a'], search := [] } =
          DirOutcome.redirectResponse r ∧
        ("Content-Security-Policy", "default-src \x27none\x27") ∈ r.headers ∧
        ("X-Content-Type-Options", "nosniff") ∈ r.headers ∧
        ∃ loc, ("Location", loc) ∈ r.headers ∧
          r.body = createHtmlDocument "Redirecting"
            ("Redirecting to <a href=\x22" ++ escapeHtml loc ++ "\x22>" ++
              escapeHtml loc ++ "</a>") ∧
          htmlSafe (escapeHtml loc).data = true :=
  ⟨by decide, claim7_redirect_body_escaped ['/', '\x22', '<', 'a'] [] (by decide)⟩

/-- C8: the setHeaders callback, when configured, runs exactly once per
successful non-error, non-redirect file response — at the headers
event, which in the success trace is after the file target is
identified and before the body is flushed — and runs zero times for
the not-found, directory and failure outcomes. -/
theorem claim8_set_headers_once :
    (∀ o : SendOutcome,
      setHeadersCalls true (sendTrace o) =
        if o = SendOutcome.fileSuccess then 1 else 0) ∧
      List.indexOf SendEvent.headersEvent (sendTrace SendOutcome.fileSuccess) <
        List.indexOf SendEvent.streamBody (sendTrace SendOutcome.fileSuccess) ∧
      List.indexOf SendEvent.fileEvent (sendTrace SendOutcome.fileSuccess) <
        List.indexOf SendEvent.headersEvent (sendTrace SendOutcome.fileSuccess) ∧
      ∀ o : SendOutcome, setHeadersCalls false (sendTrace o) = 0 := by
  refine ⟨?_, by decide, by decide, ?_⟩
  · intro o
    cases o <;> decide
  · intro o
    cases o <;> decide

/-- C9: the constructor never modifies the caller-supplied options
object: the computed maxage and root fields land on a freshly created
object whose prototype is the caller options, and every own property
of the caller object is unchanged. -/
theorem claim9_options_unmodified (h : List JsObj) (r : Nat) (root : String)
    (hr : r < h.length) :
    ((serveStaticSetup h (some r) root).1)[r]? = h[r]? ∧
      (serveStaticSetup h (some r) root).2 ≠ r ∧
      (((serveStaticSetup h (some r) root).1)[(serveStaticSetup h (some r) root).2]?).map
        JsObj.proto = some (some r) := by
  obtain ⟨v, hv⟩ := serveStaticSetup_spec h (some r) root
  have hner : h.length ≠ r := by omega
  refine ⟨?_, ?_, ?_⟩
  · rw [hv]
    simp only
    rw [getElem_setProp_ne _ _ _ _ _ hner, getElem_setProp_ne _ _ _ _ _ hner,
      List.getElem?_append_left hr]
  · rw [hv]
    simpa using hner
  · rw [hv]
    simp only
    have h0 : (h ++ [({ own := [], proto := some r } : JsObj)])[h.length]? =
        some { own := [], proto := some r } := by
      rw [List.getElem?_append_right (Nat.le_refl _)]
      simp
    rw [getElem_setProp_self _ _ _ _ (setOwnProp { own := [], proto := some r } "maxage" v)
      (getElem_setProp_self _ _ _ _ { own := [], proto := some r } h0)]
    simp [proto_setOwnProp, setOwnProp]

/-- C9 witness: a one-object heap holding an options object with an own
maxAge property. -/
theorem claim9_witness :
    0 < ([{ own := [("maxAge", JsVal.jsNum 5)], proto := none }] : List JsObj).length ∧
      (((serveStaticSetup [{ own := [("maxAge", JsVal.jsNum 5)], proto := none }]
            (some 0) "/root").1)[0]? =
          ([{ own := [("maxAge", JsVal.jsNum 5)], proto := none }] : List JsObj)[0]? ∧
        (serveStaticSetup [{ own := [("maxAge", JsVal.jsNum 5)], proto := none }]
            (some 0) "/root").2 ≠ 0 ∧
        (((serveStaticSetup [{ own := [("maxAge", JsVal.jsNum 5)], proto := none }]
              (some 0) "/root").1)[(serveStaticSetup
              [{ own := [("maxAge", JsVal.jsNum 5)], proto := none }]
              (some 0) "/root").2]?).map JsObj.proto = some (some 0)) :=
  ⟨by decide,
    claim9_options_unmodified [{ own := [("maxAge", JsVal.jsNum 5)], proto := none }] 0
      "/root" (by decide)⟩

/-- C10: a stream error whose statusCode is absent or at least 500 is
always forwarded to the next-handler as an error value, whatever the
fallthrough setting and whether or not a file event has occurred. -/
theorem claim10_server_error_forwarded (ft : Bool) (pre post : List StreamEvent)
    (e : Err)
    (h : e.statusCode = none ∨ ∃ c, e.statusCode = some c ∧ 500 ≤ c) :
    runStream ft (pre ++ StreamEvent.error e :: post) =
      runStream ft pre ++ NextCall.withErr e :: runFrom ft (feAfter ft (!ft) pre) post := by
  have hb : errStatusBelow500 e = false := by
    rcases h with hnone | ⟨c, hc, hge⟩
    · simp [errStatusBelow500, hnone]
    · simp [errStatusBelow500, hc]
      omega
  rw [runStream, runStream, runFrom_append]
  simp [runFrom, errorCallback, hb]

/-- C10 witness: an error without a statusCode, with fallthrough
enabled and no preceding file event, is forwarded. -/
theorem claim10_witness :
    (({ statusCode := none } : Err).statusCode = none ∨
        ∃ c, ({ statusCode := none } : Err).statusCode = some c ∧ 500 ≤ c) ∧
      runStream true ([] ++ StreamEvent.error { statusCode := none } :: []) =
        runStream true [] ++
          NextCall.withErr { statusCode := none } :: runFrom true (feAfter true (!true) []) [] :=
  ⟨Or.inl rfl,
    claim10_server_error_forwarded true [] [] { statusCode := none } (Or.inl rfl)⟩

end ServeStatic
